import Mathlib

/-!
Shallow embedding of the résumé/vacancy analysis engine of
`src/lib/analyzer.ts` (class `SimpleATSAnalyzer`), together with proofs of
the specification's claims about it.

Strings are modelled as `List Char` (JavaScript strings are sequences of
UTF-16 code units; all texts involved are BMP-only, where code units and
code points coincide).  JavaScript floating-point score arithmetic is
modelled with exact rationals (`ℚ`); `Math.round` is `⌊q + 1/2⌋`
(round half toward +infinity, which for the nonnegative values arising
here is round half up, exactly JavaScript's behaviour).
-/

set_option maxRecDepth 100000
set_option linter.unusedVariables false

namespace ResumeChecker

abbrev Chars := List Char

def strChars (s : String) : Chars := s.data

/-- The whitespace class of JavaScript regex `\s` / `String.trim`
(restricted to the ASCII whitespace characters; all texts involved use
only space and newline). -/
def isWS (c : Char) : Bool :=
  c = ' ' || c = '\t' || c = '\n' || c = '\r' || c.toNat = 11 || c.toNat = 12

/-- `String.prototype.toLowerCase`, restricted to the Latin and Cyrillic
letters that appear in the texts and vocabularies. -/
def toLowerChar (c : Char) : Char :=
  if c.toNat ≥ 65 && c.toNat ≤ 90 then Char.ofNat (c.toNat + 32)
  else if c.toNat ≥ 0x410 && c.toNat ≤ 0x42F then Char.ofNat (c.toNat + 32)
  else if c.toNat = 0x401 then Char.ofNat 0x451
  else c

def lowerList (l : Chars) : Chars := l.map toLowerChar

/-- One pass of `text.replace(/\s+/g, ' ')`: every maximal run of
whitespace becomes a single space.  `prevWS` records whether the previous
character was whitespace (i.e. whether we are inside a run). -/
def collapseWSAux : Bool → Chars → Chars
  | _, [] => []
  | prevWS, c :: rest =>
    if isWS c then
      if prevWS then collapseWSAux true rest
      else ' ' :: collapseWSAux true rest
    else c :: collapseWSAux false rest

def collapseWS (l : Chars) : Chars := collapseWSAux false l

/-- `String.prototype.trim`. -/
def trimList (l : Chars) : Chars :=
  ((l.dropWhile isWS).reverse.dropWhile isWS).reverse

/-- `normalizeText`: `text.replace(/\s+/g, ' ').trim()`. -/
def normalizeText (l : Chars) : Chars := trimList (collapseWS l)

/-- `text.split('\n')`: `acc` is the (reversed) current segment. -/
def splitLinesAux : Chars → Chars → List Chars
  | acc, [] => [acc.reverse]
  | acc, c :: rest =>
    if c = '\n' then acc.reverse :: splitLinesAux [] rest
    else splitLinesAux (c :: acc) rest

def splitLines (l : Chars) : List Chars := splitLinesAux [] l

/-- `parts.join(sep)` (JavaScript `Array.prototype.join`). -/
def joinSep (sep : Chars) : List Chars → Chars
  | [] => []
  | [l] => l
  | l :: l' :: ls => l ++ sep ++ joinSep sep (l' :: ls)

/-- `lines.join('\n')`. -/
def joinNL (ls : List Chars) : Chars := joinSep ['\n'] ls

/-- `haystack.includes(needle)` (substring containment). -/
def hasSub : Chars → Chars → Bool
  | hay, needle =>
    needle.isPrefixOf hay ||
      match hay with
      | [] => false
      | _ :: t => hasSub t needle

/-- Decimal rendering of a natural number, as in JS template
interpolation of `${n}`. -/
def natChars (n : Nat) : Chars := (Nat.repr n).data

/-- `Math.round` on an exact rational: round half toward +infinity. -/
def jsRound (q : ℚ) : ℤ := ⌊q + 1/2⌋

/-! ### Vocabulary tables (fields of `SimpleATSAnalyzer`) -/

def itSkills : List Chars :=
  ["python", "java", "javascript", "react", "angular", "vue", "node.js", "express",
   "django", "flask", "spring", "hibernate", "sql", "postgresql", "mysql", "mongodb",
   "redis", "docker", "kubernetes", "aws", "azure", "git", "jenkins", "ci/cd",
   "html", "css", "typescript", "php", "laravel", "symfony", "c++", "c#", ".net",
   "go", "rust", "scala", "kotlin", "swift", "flutter", "react native", "android",
   "ios", "linux", "windows", "macos", "nginx", "apache", "elasticsearch", "kafka"
  ].map strChars

def softSkills : List Chars :=
  ["коммуникация", "командная работа", "лидерство", "управление проектами",
   "аналитическое мышление", "решение проблем", "креативность", "инициативность",
   "адаптивность", "обучаемость", "стрессоустойчивость", "внимательность к деталям"
  ].map strChars

def experienceKeywords : List Chars :=
  ["опыт работы", "опыт", "карьера", "работа", "трудовая деятельность",
   "профессиональный опыт"].map strChars

def educationKeywords : List Chars :=
  ["образование", "учеба", "обучение", "квалификация"].map strChars

def skillsKeywords : List Chars :=
  ["навыки", "ключевые навыки", "технологии", "компетенции", "умения",
   "профессиональные навыки"].map strChars

def contactsKeywords : List Chars :=
  ["контакты", "контактная информация", "связь", "контактные данные"].map strChars

def aboutKeywords : List Chars :=
  ["о себе", "обо мне", "личная информация", "краткая информация", "резюме"].map strChars

/-- `Object.values(this.standardSections).flat()` (insertion order). -/
def allSectionKeywords : List Chars :=
  experienceKeywords ++ educationKeywords ++ skillsKeywords ++
    contactsKeywords ++ aboutKeywords

/-! ### Data model -/

inductive SectionTag
  | experience | education | skills | contacts | about
  deriving DecidableEq, Repr

structure ParsedResume where
  name : Option Chars
  email : Option Chars
  phone : Option Chars
  position : Option Chars
  skills : List Chars
  experience : Chars
  education : Chars
  sections : List SectionTag
  rawText : Chars
  deriving DecidableEq, Repr

inductive RecType
  | critical | warning | improvement
  deriving DecidableEq, Repr

structure Recommendation where
  type : RecType
  title : Chars
  description : Chars
  exampleText : Option Chars   -- the source field is named `example`
  deriving DecidableEq, Repr

structure VacancyRequirements where
  technicalSkills : List Chars
  softSkills : List Chars
  keywords : List Chars
  deriving DecidableEq, Repr

structure ATSAnalysisResult where
  score : Nat
  keywordsScore : Nat
  structureScore : Nat
  contactsScore : Nat
  experienceScore : Nat
  recommendations : List Recommendation
  parsedResume : ParsedResume
  matchedKeywords : List Chars
  missingKeywords : List Chars
  deriving DecidableEq, Repr

/-! ### Name extraction

`extractName` matches `/^([А-ЯЁ][а-яё]+(?:\s+[А-ЯЁ][а-яё]+){1,2})(?:\s|$)/`
against each trimmed line of the first five lines. -/

def isUpperCyr (c : Char) : Bool :=
  (c.toNat ≥ 0x410 && c.toNat ≤ 0x42F) || c.toNat = 0x401

def isLowerCyr (c : Char) : Bool :=
  (c.toNat ≥ 0x430 && c.toNat ≤ 0x44F) || c.toNat = 0x451

/-- Match `[А-ЯЁ][а-яё]+` at the head; returns the word and the rest.
The `+` is a maximal munch: in the pattern a word is always followed by
`\s`, another capitalized word, or end of input, none of which can
consume a lowercase Cyrillic letter, so the regex never backtracks into
the word. -/
def matchCapWord : Chars → Option (Chars × Chars)
  | [] => none
  | c :: rest =>
    if isUpperCyr c then
      let lows := rest.takeWhile isLowerCyr
      if lows.isEmpty then none
      else some (c :: lows, rest.dropWhile isLowerCyr)
    else none

/-- Match `\s+[А-ЯЁ][а-яё]+` at the head; returns (separator, word, rest). -/
def matchSepWord (l : Chars) : Option (Chars × Chars × Chars) :=
  let ws := l.takeWhile isWS
  if ws.isEmpty then none
  else
    match matchCapWord (l.dropWhile isWS) with
    | none => none
    | some (w, rest) => some (ws, w, rest)

/-- A `for` loop over `l` returning the first `some` produced by `f`
(matching the source's early-`return` scanning loops). -/
def firstSome {α β : Type} (f : α → Option β) : List α → Option β
  | [] => none
  | a :: as =>
    match f a with
    | some b => some b
    | none => firstSome f as

/-- The trailing `(?:\s|$)` assertion. -/
def wsOrEnd : Chars → Bool
  | [] => true
  | c :: _ => isWS c

/-- Capture group 1 of the name pattern, anchored at the start of `l`.
`{1,2}` is greedy: three words are preferred over two. -/
def nameMatch (l : Chars) : Option Chars :=
  match matchCapWord l with
  | none => none
  | some (w1, r1) =>
    match matchSepWord r1 with
    | none => none
    | some (s1, w2, r2) =>
      match matchSepWord r2 with
      | some (s2, w3, r3) =>
        if wsOrEnd r3 then some (w1 ++ s1 ++ w2 ++ s2 ++ w3)
        else if wsOrEnd r2 then some (w1 ++ s1 ++ w2)
        else none
      | none =>
        if wsOrEnd r2 then some (w1 ++ s1 ++ w2) else none

def extractName (text : Chars) : Option Chars :=
  firstSome (fun line => nameMatch (trimList line)) ((splitLines text).take 5)

/-! ### Email extraction

`extractEmail` finds the leftmost match of
`/\b[A-Za-z0-9._%+-]+@[A-Za-z0-9.-]+\.[A-Z|a-z]{2,}\b/`. -/

def isWordChar (c : Char) : Bool :=
  (c.toNat ≥ 65 && c.toNat ≤ 90) || (c.toNat ≥ 97 && c.toNat ≤ 122) ||
    (c.toNat ≥ 48 && c.toNat ≤ 57) || c = '_'

def isLocalChar (c : Char) : Bool :=
  isWordChar c || c = '.' || c = '%' || c = '+' || c = '-'

def isDomainChar (c : Char) : Bool :=
  (c.toNat ≥ 65 && c.toNat ≤ 90) || (c.toNat ≥ 97 && c.toNat ≤ 122) ||
    (c.toNat ≥ 48 && c.toNat ≤ 57) || c = '.' || c = '-'

/-- The character class `[A-Z|a-z]` (the `|` is part of the class as
written in the source). -/
def isTldChar (c : Char) : Bool :=
  (c.toNat ≥ 65 && c.toNat ≤ 90) || (c.toNat ≥ 97 && c.toNat ≤ 122) || c = '|'

/-- `\b` between an optional previous character and an optional next
character. -/
def isBoundary (prev next : Option Char) : Bool :=
  (match prev with | none => false | some c => isWordChar c) ≠
    (match next with | none => false | some c => isWordChar c)

/-- Try `[A-Z|a-z]{2,}\b` over the first `j` characters of the greedy run
`tld`, backtracking `j` downwards (greedy `{2,}`).  `after` is the input
following the run. -/
def tryTld (tld after : Chars) : Nat → Option Chars
  | 0 => none
  | j + 1 =>
    if j + 1 < 2 then none
    else
      let taken := tld.take (j + 1)
      let next := match tld.drop (j + 1) with
        | c :: _ => some c
        | [] => after.head?
      if isBoundary taken.getLast? next then some taken
      else tryTld tld after j

/-- Try `\.[A-Z|a-z]{2,}\b` after the first `k` characters of the greedy
domain run `dom`, backtracking `k` downwards (greedy `+`).  `after` is
the input following the run. -/
def tryDomain (dom after : Chars) : Nat → Option Chars
  | 0 => none
  | k + 1 =>
    let rest := dom.drop (k + 1) ++ after
    match rest with
    | '.' :: rest' =>
      let tld := rest'.takeWhile isTldChar
      match tryTld tld (rest'.dropWhile isTldChar) tld.length with
      | some t => some (dom.take (k + 1) ++ ('.' :: t))
      | none => tryDomain dom after k
    | _ => tryDomain dom after k

/-- Attempt the email pattern anchored at the head of `l`, `prev` being
the character just before `l` (for the leading `\b`). -/
def emailAt (prev : Option Char) (l : Chars) : Option Chars :=
  match l with
  | [] => none
  | c :: _ =>
    if isLocalChar c && isBoundary prev (some c) then
      let localPart := l.takeWhile isLocalChar
      match l.dropWhile isLocalChar with
      | '@' :: rest =>
        let dom := rest.takeWhile isDomainChar
        match tryDomain dom (rest.dropWhile isDomainChar) dom.length with
        | some d => some (localPart ++ ('@' :: d))
        | none => none
      | _ => none
    else none

def emailSearch (prev : Option Char) : Chars → Option Chars
  | [] => none
  | c :: rest =>
    match emailAt prev (c :: rest) with
    | some m => some m
    | none => emailSearch (some c) rest

def extractEmail (text : Chars) : Option Chars := emailSearch none text

/-! ### Phone extraction

Three patterns tried in order, each searched for its leftmost match:
`/\+7[\s\-\(\)]*\d{3}[\s\-\(\)]*\d{3}[\s\-]*\d{2}[\s\-]*\d{2}/`,
`/8[\s\-\(\)]*\d{3}[\s\-\(\)]*\d{3}[\s\-]*\d{2}[\s\-]*\d{2}/`,
`/\d{3}[\s\-\(\)]*\d{3}[\s\-]*\d{2}[\s\-]*\d{2}/`.
All adjacent classes are disjoint, so sequential maximal munch is exact. -/

def isDigit (c : Char) : Bool := c.toNat ≥ 48 && c.toNat ≤ 57

def isSepA (c : Char) : Bool := isWS c || c = '-' || c = '(' || c = ')'

def isSepB (c : Char) : Bool := isWS c || c = '-'

/-- Match exactly `n` digits at the head. -/
def matchDigits : Nat → Chars → Option (Chars × Chars)
  | 0, l => some ([], l)
  | n + 1, c :: rest =>
    if isDigit c then
      match matchDigits n rest with
      | some (d, r) => some (c :: d, r)
      | none => none
    else none
  | _ + 1, [] => none

/-- The common tail `\d{3}[\s\-\(\)]*\d{3}[\s\-]*\d{2}[\s\-]*\d{2}`. -/
def phoneTail (l : Chars) : Option Chars :=
  match matchDigits 3 l with
  | none => none
  | some (d1, r1) =>
    let s1 := r1.takeWhile isSepA
    match matchDigits 3 (r1.dropWhile isSepA) with
    | none => none
    | some (d2, r2) =>
      let s2 := r2.takeWhile isSepB
      match matchDigits 2 (r2.dropWhile isSepB) with
      | none => none
      | some (d3, r3) =>
        let s3 := r3.takeWhile isSepB
        match matchDigits 2 (r3.dropWhile isSepB) with
        | none => none
        | some (d4, _) => some (d1 ++ s1 ++ d2 ++ s2 ++ d3 ++ s3 ++ d4)

/-- Pattern 1 anchored at the head: `\+7[\s\-\(\)]*` then the tail. -/
def phone1At : Chars → Option Chars
  | '+' :: '7' :: rest =>
    let s := rest.takeWhile isSepA
    match phoneTail (rest.dropWhile isSepA) with
    | some t => some ('+' :: '7' :: (s ++ t))
    | none => none
  | _ => none

/-- Pattern 2 anchored at the head: `8[\s\-\(\)]*` then the tail. -/
def phone2At : Chars → Option Chars
  | '8' :: rest =>
    let s := rest.takeWhile isSepA
    match phoneTail (rest.dropWhile isSepA) with
    | some t => some ('8' :: (s ++ t))
    | none => none
  | _ => none

/-- Pattern 3 anchored at the head is just the tail. -/
def phone3At (l : Chars) : Option Chars := phoneTail l

def searchPattern (p : Chars → Option Chars) : Chars → Option Chars
  | [] => p []
  | c :: rest =>
    match p (c :: rest) with
    | some m => some m
    | none => searchPattern p rest

def extractPhone (text : Chars) : Option Chars :=
  match searchPattern phone1At text with
  | some m => some m
  | none =>
    match searchPattern phone2At text with
    | some m => some m
    | none => searchPattern phone3At text

/-! ### Position extraction -/

def positionKeywords : List Chars :=
  ["должность", "позиция", "специальность", "профессия", "цель"].map strChars

/-- `line.split(sep, limit)`: JavaScript `split` with a limit returns at
most `limit` segments, discarding the remainder. -/
def jsSplitLimitAux (sep : Char) (limit : Nat) : Chars → Chars → List Chars
  | acc, [] => if limit = 0 then [] else [acc.reverse]
  | acc, c :: rest =>
    if limit = 0 then []
    else if c = sep then
      if limit = 1 then [acc.reverse]
      else acc.reverse :: jsSplitLimitAux sep (limit - 1) [] rest
    else jsSplitLimitAux sep limit (c :: acc) rest

def jsSplitLimit (sep : Char) (limit : Nat) (l : Chars) : List Chars :=
  jsSplitLimitAux sep limit [] l

/-- `extractPosition`: scan the first 10 lines; on a line containing a
position keyword, take `line.split(':', 1)` and, if it has more than one
element, return the second, trimmed.  (With limit 1 the split never has
more than one element.) -/
def extractPosition (text : Chars) : Option Chars :=
  firstSome (fun line =>
    let lowerLine := trimList (lowerList line)
    if positionKeywords.any (fun kw => hasSub lowerLine kw) then
      match jsSplitLimit ':' 1 line with
      | _ :: second :: _ => some (trimList second)
      | _ => none
    else none) ((splitLines text).take 10)

/-! ### Skills, sections, block extraction -/

def extractSkills (text : Chars) : List Chars :=
  let textLower := lowerList text
  let found :=
    itSkills.filter (fun s => hasSub textLower (lowerList s)) ++
      softSkills.filter (fun s => hasSub textLower (lowerList s))
  found.eraseDups

def detectSections (text : Chars) : List SectionTag :=
  let textLower := lowerList text
  (if experienceKeywords.any (fun k => hasSub textLower k) then
      [SectionTag.experience] else []) ++
  (if educationKeywords.any (fun k => hasSub textLower k) then
      [SectionTag.education] else []) ++
  (if skillsKeywords.any (fun k => hasSub textLower k) then
      [SectionTag.skills] else []) ++
  (if contactsKeywords.any (fun k => hasSub textLower k) then
      [SectionTag.contacts] else []) ++
  (if aboutKeywords.any (fun k => hasSub textLower k) then
      [SectionTag.about] else [])

/-- Keywords that end an experience block: every section keyword not in
the experience list. -/
def expTerminators : List Chars :=
  allSectionKeywords.filter (fun k => k ∉ experienceKeywords)

/-- Keywords that end an education block. -/
def eduTerminators : List Chars :=
  allSectionKeywords.filter (fun k => k ∉ educationKeywords)

/-- The line loop of `extractExperienceSection` /
`extractEducationSection`: `starters` switch collection on (and are
skipped), `enders` break out of the loop, non-blank lines are collected
while inside the section. -/
def sectionLoop (starters enders : List Chars) : Bool → List Chars → List Chars
  | _, [] => []
  | inSection, line :: rest =>
    let lowerLine := trimList (lowerList line)
    if starters.any (fun k => hasSub lowerLine k) then
      sectionLoop starters enders true rest
    else if inSection && enders.any (fun k => hasSub lowerLine k) then []
    else if inSection && !(trimList line).isEmpty then
      line :: sectionLoop starters enders inSection rest
    else sectionLoop starters enders inSection rest

def extractExperienceSection (text : Chars) : Chars :=
  joinNL (sectionLoop experienceKeywords expTerminators false (splitLines text))

def extractEducationSection (text : Chars) : Chars :=
  joinNL (sectionLoop educationKeywords eduTerminators false (splitLines text))

/-! ### Résumé parsing -/

def parseResume (text : Chars) : ParsedResume :=
  let normalizedText := normalizeText text
  { name := extractName normalizedText
    email := extractEmail normalizedText
    phone := extractPhone normalizedText
    position := extractPosition normalizedText
    skills := extractSkills normalizedText
    experience := extractExperienceSection normalizedText
    education := extractEducationSection normalizedText
    sections := detectSections normalizedText
    rawText := normalizedText }

/-! ### Vacancy requirement extraction -/

/-- The candidate-word class `[а-яё]` of the keyword regex. -/
def isCyrWordChar (c : Char) : Bool :=
  (c.toNat ≥ 0x430 && c.toNat ≤ 0x44F) || c.toNat = 0x451

/-- `textLower.match(/[а-яё]{3,}/g)`: all maximal runs of at least three
lowercase Cyrillic letters, left to right.  `cur` holds the reversed
current run. -/
def cyrWordsAux (cur : Chars) : Chars → List Chars
  | [] => if cur.length ≥ 3 then [cur.reverse] else []
  | c :: rest =>
    if isCyrWordChar c then cyrWordsAux (c :: cur) rest
    else (if cur.length ≥ 3 then [cur.reverse] else []) ++ cyrWordsAux [] rest

def cyrWords (l : Chars) : List Chars := cyrWordsAux [] l

/-- The distinct elements of `ws` in first-occurrence order: the key
order of the record built by `words.reduce(...)`. -/
def firstOccsAux (seen : List Chars) : List Chars → List Chars
  | [] => []
  | w :: ws =>
    if w ∈ seen then firstOccsAux seen ws
    else w :: firstOccsAux (w :: seen) ws

def firstOccs (ws : List Chars) : List Chars := firstOccsAux [] ws

/-- `Object.entries(wordFreq)`: keys in first-occurrence order, each
paired with its total number of occurrences. -/
def freqTable (ws : List Chars) : List (Chars × Nat) :=
  (firstOccs ws).map (fun w => (w, ws.count w))

/-- Stable insertion into a list sorted by strictly descending count:
the embedding of the stable `sort((a, b) => b - a)`.  On ties the
inserted (earlier) element stays in front. -/
def insertDesc (p : Chars × Nat) : List (Chars × Nat) → List (Chars × Nat)
  | [] => [p]
  | q :: qs => if q.2 > p.2 then q :: insertDesc p qs else p :: q :: qs

def sortDescByFreq : List (Chars × Nat) → List (Chars × Nat)
  | [] => []
  | p :: ps => insertDesc p (sortDescByFreq ps)

def extractVacancyRequirements (vacancyText : Chars) : VacancyRequirements :=
  let textLower := lowerList vacancyText
  let techRequirements := itSkills.filter (fun s => hasSub textLower (lowerList s))
  let softRequirements := softSkills.filter (fun s => hasSub textLower (lowerList s))
  let words := cyrWords textLower
  let keywords :=
    ((sortDescByFreq ((freqTable words).filter (fun p => p.2 > 1))).take 20).map
      (fun p => p.1)
  { technicalSkills := techRequirements
    softSkills := softRequirements
    keywords := keywords }

/-! ### Keyword matching -/

/-- The combined requirement list (duplicates kept). -/
def allRequirements (reqs : VacancyRequirements) : List Chars :=
  reqs.technicalSkills ++ reqs.softSkills ++ reqs.keywords

/-- The matched/missing partition of the requirement loop, before the
missing list is truncated. -/
def keywordPartition (resume : ParsedResume) (reqs : VacancyRequirements) :
    List Chars × List Chars :=
  let resumeTextLower := lowerList resume.rawText
  (allRequirements reqs).partition (fun r => hasSub resumeTextLower (lowerList r))

/-- The untruncated missing-requirement list. -/
def fullMissing (resume : ParsedResume) (reqs : VacancyRequirements) : List Chars :=
  (keywordPartition resume reqs).2

/-- `analyzeKeywords`: returns (score, matched, missing truncated to 10).
The score is `Math.min(Math.round(matched.length / total * 100), 100)`;
for `total ≠ 0` the rounded value is the exact integer
`⌊matched·100/total + 1/2⌋ = (200·matched + total) / (2·total)`
(see `keywordScore_eq_jsRound`). -/
def analyzeKeywords (resume : ParsedResume) (reqs : VacancyRequirements) :
    Nat × List Chars × List Chars :=
  let matched := (keywordPartition resume reqs).1
  let missing := (keywordPartition resume reqs).2
  if (allRequirements reqs).length = 0 then (100, [], [])
  else
    let score :=
      min ((200 * matched.length + (allRequirements reqs).length) /
        (2 * (allRequirements reqs).length)) 100
    (score, matched, missing.take 10)

/-! ### Dimension scorers and aggregation -/

def expectedSections : List SectionTag :=
  [SectionTag.experience, SectionTag.education, SectionTag.skills]

/-- `analyzeStructure`:
`Math.min(Math.round((found / 3) * 70 + bonus), 100)` where `bonus` is
15 for a contacts section plus 15 for more than five lines; the rounded
value is the exact integer `⌊70·found/3 + bonus + 1/2⌋ =
(140·found + 6·bonus + 3) / 6` (see `analyzeStructure_eq_jsRound`). -/
def analyzeStructure (resume : ParsedResume) : Nat :=
  let foundSections :=
    (expectedSections.filter (fun s => resume.sections.contains s)).length
  let bonus :=
    (if resume.sections.contains SectionTag.contacts then 15 else 0) +
      (if (splitLines resume.rawText).length > 5 then 15 else 0)
  min ((140 * foundSections + 6 * bonus + 3) / 6) 100

def analyzeContacts (resume : ParsedResume) : Nat :=
  min ((if resume.email.isSome then 40 else 0) +
       (if resume.phone.isSome then 40 else 0) +
       (if resume.name.isSome then 20 else 0)) 100

def analyzeExperience (resume : ParsedResume) (reqs : VacancyRequirements) : Nat :=
  if resume.experience.isEmpty then 0
  else
    let lengthBonus :=
      if resume.experience.length > 200 then 30
      else if resume.experience.length > 100 then 20
      else if resume.experience.length > 50 then 10
      else 0
    let experienceLower := lowerList resume.experience
    let relevantSkills :=
      reqs.technicalSkills.filter (fun s => hasSub experienceLower (lowerList s))
    let relevanceBonus :=
      if relevantSkills.length > 0 then min (relevantSkills.length * 5) 30 else 0
    min (40 + lengthBonus + relevanceBonus) 100

/-- The weighted aggregate
`Math.round(k * 0.40 + s * 0.30 + c * 0.15 + e * 0.15)`: the rounded
value is the exact integer `⌊(40k + 30s + 15c + 15e)/100 + 1/2⌋ =
(40k + 30s + 15c + 15e + 50) / 100` (see `totalScore_eq_jsRound`). -/
def totalScore (k s c e : Nat) : Nat :=
  (40 * k + 30 * s + 15 * c + 15 * e + 50) / 100

/-! ### Recommendation generation -/

def rule1Title : Chars := strChars "Добавьте ключевые слова из вакансии"

def rule2Title : Chars := strChars "Добавьте стандартные разделы"

def rule3Title : Chars := strChars "Добавьте контактную информацию"

def rule4aTitle : Chars := strChars "Детально опишите опыт работы"

def rule4bTitle : Chars := strChars "Расширьте описание опыта"

def affirmationTitle : Chars := strChars "Отличная работа!"

/-- Rule 1's recommendation, built from the missing-keyword list it is
given (the truncated one, as passed by `analyzeResume`). -/
def mkRule1 (missingKeywords : List Chars) : Recommendation :=
  { type := RecType.critical
    title := rule1Title
    description :=
      strChars "Ваше резюме не содержит " ++ natChars missingKeywords.length ++
        strChars " важных ключевых слов. ATS системы ищут точные совпадения."
    exampleText :=
      some (strChars "Добавьте: " ++
        joinSep (strChars ", ") (missingKeywords.take 5)) }

def mkRule2 (missingSections : List Chars) : Recommendation :=
  { type := RecType.warning
    title := rule2Title
    description :=
      strChars "ATS системы ожидают стандартную структуру резюме. Отсутствуют разделы: " ++
        joinSep (strChars ", ") missingSections
    exampleText :=
      some (strChars "Используйте заголовки: \"Опыт работы\", \"Образование\", \"Ключевые навыки\"") }

def mkRule3 (missingContacts : List Chars) : Recommendation :=
  { type := RecType.critical
    title := rule3Title
    description :=
      strChars "Отсутствуют важные контактные данные: " ++
        joinSep (strChars ", ") missingContacts
    exampleText := some (strChars "Укажите ФИО, телефон и email в начале резюме") }

def rule4aRec : Recommendation :=
  { type := RecType.warning
    title := rule4aTitle
    description := strChars "Раздел опыта работы отсутствует или слишком краткий"
    exampleText :=
      some (strChars "Укажите компании, должности, период работы и основные обязанности") }

def rule4bRec : Recommendation :=
  { type := RecType.improvement
    title := rule4bTitle
    description :=
      strChars "Описание опыта работы слишком краткое для эффективного анализа ATS"
    exampleText :=
      some (strChars "Добавьте конкретные достижения, проекты и используемые технологии") }

def affirmationRec : Recommendation :=
  { type := RecType.improvement
    title := affirmationTitle
    description := strChars "Ваше резюме хорошо оптимизировано для ATS систем"
    exampleText :=
      some (strChars "Продолжайте обновлять резюме актуальными навыками и достижениями") }

/-- Rule 1 (missing keywords): the recommendations pushed by the first
`if` block of `generateRecommendations`. -/
def rule1Recs (keywordsScore : Nat) (missingKeywords : List Chars) :
    List Recommendation :=
  if keywordsScore < 70 then
    if missingKeywords.length > 0 then [mkRule1 missingKeywords] else []
  else []

/-- Rule 2 (missing standard sections). -/
def rule2Recs (structureScore : Nat) (resume : ParsedResume) :
    List Recommendation :=
  if structureScore < 70 then
    let missingSections :=
      (if resume.sections.contains SectionTag.experience then []
        else [strChars "опыт работы"]) ++
      (if resume.sections.contains SectionTag.education then []
        else [strChars "образование"]) ++
      (if resume.sections.contains SectionTag.skills then []
        else [strChars "навыки"])
    if missingSections.length > 0 then [mkRule2 missingSections] else []
  else []

/-- Rule 3 (missing contact data). -/
def rule3Recs (contactsScore : Nat) (resume : ParsedResume) :
    List Recommendation :=
  if contactsScore < 80 then
    let missingContacts :=
      (if resume.email.isSome then [] else [strChars "email"]) ++
      (if resume.phone.isSome then [] else [strChars "телефон"]) ++
      (if resume.name.isSome then [] else [strChars "ФИО"])
    if missingContacts.length > 0 then [mkRule3 missingContacts] else []
  else []

/-- Rule 4 (experience description). -/
def rule4Recs (experienceScore : Nat) (resume : ParsedResume) :
    List Recommendation :=
  if experienceScore < 60 then
    if resume.experience.isEmpty then [rule4aRec]
    else if resume.experience.length < 100 then [rule4bRec]
    else []
  else []

def generateRecommendations (keywordsScore structureScore contactsScore
    experienceScore : Nat) (resume : ParsedResume)
    (requirements : VacancyRequirements) (matchedKeywords : List Chars)
    (missingKeywords : List Chars) : List Recommendation :=
  let recommendations :=
    rule1Recs keywordsScore missingKeywords ++
      rule2Recs structureScore resume ++
      rule3Recs contactsScore resume ++
      rule4Recs experienceScore resume
  if recommendations.length = 0 then [affirmationRec] else recommendations

/-! ### The engine -/

def analyzeResume (resumeText vacancyText : String) : ATSAnalysisResult :=
  let parsedResume := parseResume resumeText.data
  let vacancyRequirements := extractVacancyRequirements vacancyText.data
  let kw := analyzeKeywords parsedResume vacancyRequirements
  let keywordsScore := kw.1
  let matchedKeywords := kw.2.1
  let missingKeywords := kw.2.2
  let structureScore := analyzeStructure parsedResume
  let contactsScore := analyzeContacts parsedResume
  let experienceScore := analyzeExperience parsedResume vacancyRequirements
  let score := totalScore keywordsScore structureScore contactsScore experienceScore
  let recommendations :=
    generateRecommendations keywordsScore structureScore contactsScore
      experienceScore parsedResume vacancyRequirements matchedKeywords
      missingKeywords
  { score := score
    keywordsScore := keywordsScore
    structureScore := structureScore
    contactsScore := contactsScore
    experienceScore := experienceScore
    recommendations := recommendations
    parsedResume := parsedResume
    matchedKeywords := matchedKeywords
    missingKeywords := missingKeywords }

/-! ### Basic facts about normalization and line splitting -/

theorem nl_isWS : isWS '\n' = true := by decide

theorem nl_not_mem_collapseWSAux (b : Bool) (l : Chars) :
    '\n' ∉ collapseWSAux b l := by
  induction l generalizing b with
  | nil => simp [collapseWSAux]
  | cons c rest ih =>
    by_cases hc : isWS c = true
    · cases b with
      | true => simpa [collapseWSAux, hc] using ih true
      | false =>
        simp only [collapseWSAux, hc, if_true, if_false]
        intro hmem
        rcases List.mem_cons.1 hmem with h | h
        · exact absurd h (by decide)
        · exact ih true h
    · simp only [collapseWSAux, hc, if_false]
      intro hmem
      rcases List.mem_cons.1 hmem with h | h
      · subst h; exact hc nl_isWS
      · exact ih false h

theorem mem_of_mem_dropWhile {p : Char → Bool} {x : Char} {l : Chars}
    (h : x ∈ l.dropWhile p) : x ∈ l := by
  induction l with
  | nil => simp [List.dropWhile] at h
  | cons c rest ih =>
    by_cases hc : p c = true
    · exact List.mem_cons_of_mem c (ih (by simpa [List.dropWhile, hc] using h))
    · simpa [List.dropWhile, hc] using h

theorem mem_of_mem_trimList {x : Char} {l : Chars} (h : x ∈ trimList l) :
    x ∈ l := by
  unfold trimList at h
  rw [List.mem_reverse] at h
  have h' := mem_of_mem_dropWhile h
  rw [List.mem_reverse] at h'
  exact mem_of_mem_dropWhile h'

theorem nl_not_mem_normalizeText (l : Chars) : '\n' ∉ normalizeText l :=
  fun h => nl_not_mem_collapseWSAux false l (mem_of_mem_trimList h)

theorem splitLinesAux_eq_of_nl_not_mem (l : Chars) (acc : Chars)
    (h : '\n' ∉ l) : splitLinesAux acc l = [acc.reverse ++ l] := by
  induction l generalizing acc with
  | nil => simp [splitLinesAux]
  | cons c rest ih =>
    have hc : ¬ c = '\n' := fun hceq => h (hceq ▸ List.mem_cons_self c rest)
    have hrest : '\n' ∉ rest := fun hr => h (List.mem_cons_of_mem c hr)
    simp only [splitLinesAux, if_neg hc]
    rw [ih (c :: acc) hrest]
    simp

theorem splitLines_eq_single {l : Chars} (h : '\n' ∉ l) :
    splitLines l = [l] := by
  unfold splitLines
  rw [splitLinesAux_eq_of_nl_not_mem l [] h]
  simp

/-- On a single line the section loop collects nothing: the line either
switches collection on (and is skipped) or is ignored. -/
theorem sectionLoop_singleton (starters enders : List Chars) (line : Chars) :
    sectionLoop starters enders false [line] = [] := by
  unfold sectionLoop
  by_cases h : (starters.any fun k => hasSub (trimList (lowerList line)) k) = true
  · simp [h, sectionLoop]
  · simp [h, sectionLoop]

theorem extractExperienceSection_of_single {t : Chars} (h : '\n' ∉ t) :
    extractExperienceSection t = [] := by
  unfold extractExperienceSection
  rw [splitLines_eq_single h, sectionLoop_singleton]
  rfl

theorem extractEducationSection_of_single {t : Chars} (h : '\n' ∉ t) :
    extractEducationSection t = [] := by
  unfold extractEducationSection
  rw [splitLines_eq_single h, sectionLoop_singleton]
  rfl

theorem parseResume_experience (t : Chars) : (parseResume t).experience = [] :=
  extractExperienceSection_of_single (nl_not_mem_normalizeText t)

theorem parseResume_education (t : Chars) : (parseResume t).education = [] :=
  extractEducationSection_of_single (nl_not_mem_normalizeText t)

theorem parseResume_rawText (t : Chars) :
    (parseResume t).rawText = normalizeText t := rfl

theorem analyzeExperience_of_empty {resume : ParsedResume}
    (h : resume.experience = []) (reqs : VacancyRequirements) :
    analyzeExperience resume reqs = 0 := by
  unfold analyzeExperience
  rw [h]
  rfl

theorem analyzeResume_experienceScore (r v : String) :
    (analyzeResume r v).experienceScore = 0 :=
  analyzeExperience_of_empty (parseResume_experience r.data) _

/-! ### Score bounds -/

theorem analyzeKeywords_fst_le (resume : ParsedResume)
    (reqs : VacancyRequirements) : (analyzeKeywords resume reqs).1 ≤ 100 := by
  unfold analyzeKeywords
  split
  · exact le_refl 100
  · exact min_le_right _ _

theorem analyzeStructure_le (resume : ParsedResume) :
    analyzeStructure resume ≤ 100 :=
  min_le_right _ _

theorem analyzeContacts_le (resume : ParsedResume) :
    analyzeContacts resume ≤ 100 :=
  min_le_right _ _

theorem analyzeExperience_le (resume : ParsedResume)
    (reqs : VacancyRequirements) : analyzeExperience resume reqs ≤ 100 := by
  unfold analyzeExperience
  split
  · exact Nat.zero_le 100
  · exact min_le_right _ _

theorem jsRound_hundred : jsRound (100 : ℚ) = 100 := by
  show ⌊(100 : ℚ) + 1/2⌋ = (100 : ℤ)
  rw [Int.floor_eq_iff]
  norm_num

theorem totalScore_le_100 {k s c e : Nat} (hk : k ≤ 100) (hs : s ≤ 100)
    (hc : c ≤ 100) (he : e ≤ 100) : totalScore k s c e ≤ 100 := by
  unfold totalScore
  calc (40 * k + 30 * s + 15 * c + 15 * e + 50) / 100
      ≤ 10050 / 100 := Nat.div_le_div_right (by omega)
    _ = 100 := by norm_num

/-- Claim C1: for every pair of input strings, `analyzeResume` returns an
overall score and four breakdown scores (keywords, structure, contacts,
experience) that are all natural numbers between 0 and 100 inclusive. -/
theorem C1_score_bounds (r v : String) :
    ((analyzeResume r v).score ≤ 100) ∧
    ((analyzeResume r v).keywordsScore ≤ 100) ∧
    ((analyzeResume r v).structureScore ≤ 100) ∧
    ((analyzeResume r v).contactsScore ≤ 100) ∧
    ((analyzeResume r v).experienceScore ≤ 100) := by
  refine ⟨?_, ?_, ?_, ?_, ?_⟩
  · exact totalScore_le_100 (analyzeKeywords_fst_le _ _) (analyzeStructure_le _)
      (analyzeContacts_le _) (analyzeExperience_le _ _)
  · exact analyzeKeywords_fst_le _ _
  · exact analyzeStructure_le _
  · exact analyzeContacts_le _
  · exact analyzeExperience_le _ _

/-- Claim C3: for every input pair, the parsed résumé's experience and
education blocks are the empty string and the experience breakdown score
is 0: `parseResume` collapses all whitespace (newlines included) before
the line-based block extraction runs, so the text has exactly one line,
and the line that switches the extraction on is itself skipped, leaving
nothing to collect. -/
theorem C3_experience_education_always_empty (r v : String) :
    ((analyzeResume r v).parsedResume.experience = []) ∧
    ((analyzeResume r v).parsedResume.education = []) ∧
    ((analyzeResume r v).experienceScore = 0) :=
  ⟨parseResume_experience r.data, parseResume_education r.data,
    analyzeResume_experienceScore r v⟩

/-! ### Recommendation facts -/

theorem mkRule1_ne_affirmation (xs : List Chars) : mkRule1 xs ≠ affirmationRec := by
  intro h
  have ht : rule1Title = affirmationTitle := congrArg Recommendation.title h
  exact absurd ht (by decide)

theorem mkRule2_ne_affirmation (xs : List Chars) : mkRule2 xs ≠ affirmationRec := by
  intro h
  have ht : rule2Title = affirmationTitle := congrArg Recommendation.title h
  exact absurd ht (by decide)

theorem mkRule3_ne_affirmation (xs : List Chars) : mkRule3 xs ≠ affirmationRec := by
  intro h
  have ht : rule3Title = affirmationTitle := congrArg Recommendation.title h
  exact absurd ht (by decide)

theorem mem_rule1Recs_title {x : Recommendation} {k : Nat} {ms : List Chars}
    (h : x ∈ rule1Recs k ms) : x.title = rule1Title := by
  unfold rule1Recs at h
  split_ifs at h <;> simp_all [mkRule1]

theorem mem_rule2Recs_title {x : Recommendation} {s : Nat}
    {resume : ParsedResume} (h : x ∈ rule2Recs s resume) :
    x.title = rule2Title := by
  unfold rule2Recs at h
  split_ifs at h <;> simp_all [mkRule2]

theorem mem_rule3Recs_title {x : Recommendation} {c : Nat}
    {resume : ParsedResume} (h : x ∈ rule3Recs c resume) :
    x.title = rule3Title := by
  unfold rule3Recs at h
  split_ifs at h <;> simp_all [mkRule3]

theorem affirmation_not_mem_rule1Recs (k : Nat) (ms : List Chars) :
    affirmationRec ∉ rule1Recs k ms := fun h =>
  absurd (mem_rule1Recs_title h) (by decide)

theorem affirmation_not_mem_rule2Recs (s : Nat) (resume : ParsedResume) :
    affirmationRec ∉ rule2Recs s resume := fun h =>
  absurd (mem_rule2Recs_title h) (by decide)

theorem affirmation_not_mem_rule3Recs (c : Nat) (resume : ParsedResume) :
    affirmationRec ∉ rule3Recs c resume := fun h =>
  absurd (mem_rule3Recs_title h) (by decide)

theorem rule4Recs_of_exp_zero {resume : ParsedResume}
    (hexp : resume.experience = []) :
    rule4Recs 0 resume = [rule4aRec] := by
  simp [rule4Recs, hexp]

theorem generateRecommendations_of_exp_zero (k s c : Nat)
    (resume : ParsedResume) (reqs : VacancyRequirements)
    (mk ms : List Chars) (hexp : resume.experience = []) :
    rule4aRec ∈ generateRecommendations k s c 0 resume reqs mk ms ∧
    affirmationRec ∉ generateRecommendations k s c 0 resume reqs mk ms := by
  unfold generateRecommendations
  rw [rule4Recs_of_exp_zero hexp]
  have hne : ¬ ((rule1Recs k ms ++ rule2Recs s resume ++ rule3Recs c resume ++
      [rule4aRec]).length = 0) := by simp
  rw [if_neg hne]
  constructor
  · simp [List.mem_append]
  · simp only [List.mem_append, List.mem_singleton, not_or]
    exact ⟨⟨⟨affirmation_not_mem_rule1Recs k ms,
      affirmation_not_mem_rule2Recs s resume⟩,
      affirmation_not_mem_rule3Recs c resume⟩, by decide⟩

/-- Claim C10: for every input pair, the recommendation list contains the
warning "Детально опишите опыт работы" (rule 4's empty-experience branch
fires on every call, since the experience score is always 0 and the
parsed experience block is always empty), and consequently the closing
"Отличная работа!" affirmation, emitted only when no other rule fired,
is emitted for no input. -/
theorem C10_experience_warning_always (r v : String) :
    rule4aRec ∈ (analyzeResume r v).recommendations ∧
    affirmationRec ∉ (analyzeResume r v).recommendations := by
  have hscore :
      analyzeExperience (parseResume r.data) (extractVacancyRequirements v.data)
        = 0 :=
    analyzeExperience_of_empty (parseResume_experience r.data) _
  have hrecs : (analyzeResume r v).recommendations =
      generateRecommendations
        ((analyzeKeywords (parseResume r.data)
          (extractVacancyRequirements v.data)).1)
        (analyzeStructure (parseResume r.data))
        (analyzeContacts (parseResume r.data)) 0
        (parseResume r.data) (extractVacancyRequirements v.data)
        ((analyzeKeywords (parseResume r.data)
          (extractVacancyRequirements v.data)).2.1)
        ((analyzeKeywords (parseResume r.data)
          (extractVacancyRequirements v.data)).2.2) := by
    rw [← hscore]
    rfl
  rw [hrecs]
  exact generateRecommendations_of_exp_zero _ _ _ _ _ _ _
    (parseResume_experience r.data)

/-! ### Position extraction is dead code -/

theorem firstSome_eq_none {α β : Type} {f : α → Option β} {l : List α}
    (hf : ∀ a ∈ l, f a = none) : firstSome f l = none := by
  induction l with
  | nil => rfl
  | cons a as ih =>
    unfold firstSome
    rw [hf a (List.mem_cons_self a as)]
    exact ih fun x hx => hf x (List.mem_cons_of_mem a hx)

/-- With limit 1, JavaScript `split` returns exactly one segment. -/
theorem jsSplitLimitAux_limit_one (sep : Char) (l acc : Chars) :
    ∃ x, jsSplitLimitAux sep 1 acc l = [x] := by
  induction l generalizing acc with
  | nil => exact ⟨acc.reverse, rfl⟩
  | cons c rest ih =>
    unfold jsSplitLimitAux
    by_cases hc : c = sep
    · exact ⟨acc.reverse, by simp [hc]⟩
    · simpa [hc] using ih (c :: acc)

theorem extractPosition_eq_none (t : Chars) : extractPosition t = none := by
  unfold extractPosition
  apply firstSome_eq_none
  intro line _
  by_cases hkw : (positionKeywords.any fun kw =>
      hasSub (trimList (lowerList line)) kw) = true
  · obtain ⟨x, hx⟩ := jsSplitLimitAux_limit_one ':' line []
    have hsplit : jsSplitLimit ':' 1 line = [x] := hx
    simp only [hkw, if_true, hsplit]
  · simp only [hkw]
    rfl

/-- Claim C8 (code bug): the source intends to return the trimmed text
after the first colon of a position-labelled line, but
`line.split(':', 1)` returns at most one segment, so the
`parts.length > 1` branch is dead and the extracted position is `none`
for every input — in particular for a résumé consisting of the line
"Должность: Разработчик". -/
theorem C8_position_never_extracted :
    (∀ t : Chars, extractPosition t = none) ∧
    (analyzeResume "Должность: Разработчик" "х").parsedResume.position = none :=
  ⟨extractPosition_eq_none,
    extractPosition_eq_none (normalizeText (strChars "Должность: Разработчик"))⟩

/-! ### The structure score in closed natural-number form -/

theorem jsRound_natCast_div (a b : ℕ) (hb : 0 < b) :
    (jsRound ((a : ℚ) / (b : ℚ))).toNat = (2 * a + b) / (2 * b) := by
  unfold jsRound
  have hbq : ((b : ℚ)) ≠ 0 := Nat.cast_ne_zero.2 hb.ne'
  have h : (a : ℚ) / (b : ℚ) + 1 / 2 =
      ((2 * a + b : ℕ) : ℚ) / ((2 * b : ℕ) : ℚ) := by
    push_cast
    field_simp
    ring
  rw [h, Int.floor_toNat, Nat.floor_div_nat, Nat.floor_natCast]

/-- The aggregate score is exactly the spec's
`Math.round(k·0.40 + s·0.30 + c·0.15 + e·0.15)`. -/
theorem totalScore_eq_jsRound (k s c e : Nat) :
    totalScore k s c e =
      (jsRound ((k : ℚ) * (40 / 100) + (s : ℚ) * (30 / 100) +
        (c : ℚ) * (15 / 100) + (e : ℚ) * (15 / 100))).toNat := by
  have hq : (k : ℚ) * (40 / 100) + (s : ℚ) * (30 / 100) +
      (c : ℚ) * (15 / 100) + (e : ℚ) * (15 / 100) =
      ((40 * k + 30 * s + 15 * c + 15 * e : ℕ) : ℚ) / ((100 : ℕ) : ℚ) := by
    push_cast
    ring
  rw [totalScore, hq, jsRound_natCast_div _ _ (by norm_num)]
  have h2 : 2 * (40 * k + 30 * s + 15 * c + 15 * e) + 100 =
      2 * (40 * k + 30 * s + 15 * c + 15 * e + 50) := by ring
  rw [h2]
  have h100 : (2 : ℕ) * 100 = 2 * 100 := rfl
  rw [Nat.mul_div_mul_left _ _ (by norm_num : 0 < 2)]

/-- The structure score is exactly the spec's rounded rational formula
`Math.min(Math.round((found / 3) * 70 + bonus), 100)`. -/
theorem analyzeStructure_eq_jsRound (resume : ParsedResume) :
    analyzeStructure resume =
      min (jsRound
        (((expectedSections.filter
              (fun s => resume.sections.contains s)).length : ℚ) /
            ((expectedSections.length : ℕ) : ℚ) * 70 +
          (if resume.sections.contains SectionTag.contacts then (15 : ℚ) else 0) +
          (if (splitLines resume.rawText).length > 5 then (15 : ℚ) else 0))).toNat
        100 := by
  simp only [analyzeStructure]
  set f := (expectedSections.filter fun s => resume.sections.contains s).length
    with hf
  have e1 : (if resume.sections.contains SectionTag.contacts
        then (15 : ℚ) else 0) =
      ((if resume.sections.contains SectionTag.contacts then 15 else 0 : ℕ) : ℚ) := by
    by_cases h : resume.sections.contains SectionTag.contacts = true <;> simp [h]
  have e2 : (if (splitLines resume.rawText).length > 5 then (15 : ℚ) else 0) =
      ((if (splitLines resume.rawText).length > 5 then 15 else 0 : ℕ) : ℚ) := by
    by_cases h : (splitLines resume.rawText).length > 5 <;> simp [h]
  set b1 : ℕ := if resume.sections.contains SectionTag.contacts then 15 else 0
  set b2 : ℕ := if (splitLines resume.rawText).length > 5 then 15 else 0
  have hq : (f : ℚ) / ((expectedSections.length : ℕ) : ℚ) * 70 + (b1 : ℚ) + (b2 : ℚ) =
      ((70 * f + 3 * (b1 + b2) : ℕ) : ℚ) / ((3 : ℕ) : ℚ) := by
    have h3 : ((expectedSections.length : ℕ) : ℚ) = 3 := by norm_num [expectedSections]
    rw [h3]
    push_cast
    field_simp
    ring
  rw [e1, e2, hq, jsRound_natCast_div _ _ (by norm_num)]
  congr 1
  omega

theorem detectSections_eq_nil {t : Chars}
    (h : ∀ k ∈ allSectionKeywords, hasSub (lowerList t) k = false) :
    detectSections t = [] := by
  have hall : ∀ (ks : List Chars), (∀ k ∈ ks, k ∈ allSectionKeywords) →
      (ks.any fun k => hasSub (lowerList t) k) = false := fun ks hks =>
    List.any_eq_false.2 fun k hk => by simp [h k (hks k hk)]
  have h1 := hall experienceKeywords fun k hk => by
    simp [allSectionKeywords, hk]
  have h2 := hall educationKeywords fun k hk => by
    simp [allSectionKeywords, hk]
  have h3 := hall skillsKeywords fun k hk => by
    simp [allSectionKeywords, hk]
  have h4 := hall contactsKeywords fun k hk => by
    simp [allSectionKeywords, hk]
  have h5 := hall aboutKeywords fun k hk => by
    simp [allSectionKeywords, hk]
  simp only [detectSections]
  rw [h1, h2, h3, h4, h5]
  rfl

/-- Claim C4: the structure score equals, rounded and clamped to 100,
`(countOf(expected sections present) / 3) * 70` plus 15 for a contacts
section plus 15 for more than five lines (the closed natural-number form
of the rounded rational being `(140·f + 6·bonus + 3) / 6`); consequently
a résumé whose normalized text contains none of the five section keyword
groups has an empty section set and a structure score of at most 15. -/
theorem C4_structure_formula :
    (∀ resume : ParsedResume,
      analyzeStructure resume =
        min (jsRound
          (((expectedSections.filter
                (fun s => resume.sections.contains s)).length : ℚ) /
              ((expectedSections.length : ℕ) : ℚ) * 70 +
            (if resume.sections.contains SectionTag.contacts
              then (15 : ℚ) else 0) +
            (if (splitLines resume.rawText).length > 5
              then (15 : ℚ) else 0))).toNat 100) ∧
    (∀ r v : String,
      (∀ k ∈ allSectionKeywords,
          hasSub (lowerList (analyzeResume r v).parsedResume.rawText) k = false) →
        (analyzeResume r v).parsedResume.sections = [] ∧
        (analyzeResume r v).structureScore ≤ 15) := by
  refine ⟨analyzeStructure_eq_jsRound, fun r v h => ?_⟩
  have hsec : (parseResume r.data).sections = [] := detectSections_eq_nil h
  refine ⟨hsec, ?_⟩
  show analyzeStructure (parseResume r.data) ≤ 15
  simp only [analyzeStructure, hsec]
  have hlines : splitLines (parseResume r.data).rawText =
      [normalizeText r.data] :=
    splitLines_eq_single (nl_not_mem_normalizeText r.data)
  rw [hlines]
  simp

/-! ### Keyword matching -/

theorem keywordPartition_eq (resume : ParsedResume) (reqs : VacancyRequirements) :
    keywordPartition resume reqs =
      ((allRequirements reqs).filter
        (fun q => hasSub (lowerList resume.rawText) (lowerList q)),
       (allRequirements reqs).filter
        (fun q => !(hasSub (lowerList resume.rawText) (lowerList q)))) := by
  unfold keywordPartition
  rw [List.partition_eq_filter_filter]
  rfl

/-- The keyword score of the non-vacuous branch is exactly the spec's
`Math.round(matched / total * 100)`. -/
theorem keywordScore_eq_jsRound (m t : Nat) (ht : ¬ t = 0) :
    (200 * m + t) / (2 * t) = (jsRound ((m : ℚ) / (t : ℚ) * 100)).toNat := by
  have hq : (m : ℚ) / (t : ℚ) * 100 = ((100 * m : ℕ) : ℚ) / ((t : ℕ) : ℚ) := by
    push_cast
    ring
  rw [hq, jsRound_natCast_div _ _ (Nat.pos_of_ne_zero ht)]
  congr 1
  ring

theorem analyzeKeywords_eq (resume : ParsedResume) (reqs : VacancyRequirements) :
    analyzeKeywords resume reqs =
      ((if (allRequirements reqs).length = 0 then 100
        else min (jsRound ((((allRequirements reqs).filter
            (fun q => hasSub (lowerList resume.rawText) (lowerList q))).length : ℚ) /
            ((allRequirements reqs).length : ℚ) * 100)).toNat 100),
       (allRequirements reqs).filter
          (fun q => hasSub (lowerList resume.rawText) (lowerList q)),
       ((allRequirements reqs).filter
          (fun q => !(hasSub (lowerList resume.rawText) (lowerList q)))).take 10) := by
  by_cases h : (allRequirements reqs).length = 0
  · have hall : allRequirements reqs = [] := List.length_eq_zero.1 h
    simp [analyzeKeywords, h, hall]
  · simp only [analyzeKeywords, keywordPartition_eq, if_neg h,
      keywordScore_eq_jsRound _ _ h]

theorem count_le_one_of_nodup {α : Type} [BEq α] [LawfulBEq α] {l : List α}
    (h : l.Nodup) (a : α) : l.count a ≤ 1 := by
  induction l with
  | nil => simp
  | cons x t ih =>
    rcases List.nodup_cons.1 h with ⟨hx, ht⟩
    rw [List.count_cons]
    by_cases hxa : (x == a) = true
    · have hat : a ∉ t := by
        have hEq : x = a := eq_of_beq hxa
        subst hEq
        exact hx
      rw [List.count_eq_zero.2 hat]
      simp [hxa]
    · have := ih ht
      simp [hxa]
      omega

theorem extractVacancyRequirements_empty {v : Chars}
    (h1 : ∀ s ∈ itSkills ++ softSkills, hasSub (lowerList v) (lowerList s) = false)
    (h2 : (cyrWords (lowerList v)).Nodup) :
    extractVacancyRequirements v = ⟨[], [], []⟩ := by
  have ht : itSkills.filter (fun s => hasSub (lowerList v) (lowerList s)) = [] :=
    List.filter_eq_nil_iff.2 fun s hs => by
      simp [h1 s (List.mem_append_left _ hs)]
  have hsoft : softSkills.filter (fun s => hasSub (lowerList v) (lowerList s)) = [] :=
    List.filter_eq_nil_iff.2 fun s hs => by
      simp [h1 s (List.mem_append_right _ hs)]
  have hk : (freqTable (cyrWords (lowerList v))).filter (fun p => p.2 > 1) = [] := by
    apply List.filter_eq_nil_iff.2
    intro p hp
    obtain ⟨w, hw, rfl⟩ := List.mem_map.1 hp
    have hcount := count_le_one_of_nodup h2 w
    simp only [decide_eq_true_eq]
    omega
  simp only [extractVacancyRequirements, ht, hsoft, hk]
  rfl

/-- Claim C2: if the combined requirement list
(`technicalSkills ++ softSkills ++ keywords`, duplicates kept) is empty
the keyword score is 100 with empty matched/missing lists; otherwise the
score is `min(round(matched / total * 100), 100)` where `matched` is the
sublist of requirements occurring case-insensitively in the résumé's
raw text (and the reported missing list is the first 10 of the rest).
In particular a vacancy with no vocabulary skill and no repeated
candidate word yields keyword score 100 and empty lists. -/
theorem C2_keyword_score (r v : String) :
    ((analyzeResume r v).matchedKeywords =
      (allRequirements (extractVacancyRequirements v.data)).filter
        (fun q => hasSub (lowerList (analyzeResume r v).parsedResume.rawText)
          (lowerList q))) ∧
    ((analyzeResume r v).missingKeywords =
      ((allRequirements (extractVacancyRequirements v.data)).filter
        (fun q => !(hasSub (lowerList (analyzeResume r v).parsedResume.rawText)
          (lowerList q)))).take 10) ∧
    ((analyzeResume r v).keywordsScore =
      if (allRequirements (extractVacancyRequirements v.data)).length = 0 then 100
      else min (jsRound (((analyzeResume r v).matchedKeywords.length : ℚ) /
        ((allRequirements (extractVacancyRequirements v.data)).length : ℚ) *
          100)).toNat 100) ∧
    (((∀ s ∈ itSkills ++ softSkills,
          hasSub (lowerList v.data) (lowerList s) = false) ∧
        (cyrWords (lowerList v.data)).Nodup) →
      (analyzeResume r v).keywordsScore = 100 ∧
      (analyzeResume r v).matchedKeywords = [] ∧
      (analyzeResume r v).missingKeywords = []) := by
  have hk := analyzeKeywords_eq (parseResume r.data) (extractVacancyRequirements v.data)
  have hmat : (analyzeResume r v).matchedKeywords =
      (allRequirements (extractVacancyRequirements v.data)).filter
        (fun q => hasSub (lowerList (parseResume r.data).rawText) (lowerList q)) :=
    congrArg (fun t => t.2.1) hk
  have hmiss : (analyzeResume r v).missingKeywords =
      ((allRequirements (extractVacancyRequirements v.data)).filter
        (fun q => !(hasSub (lowerList (parseResume r.data).rawText)
          (lowerList q)))).take 10 :=
    congrArg (fun t => t.2.2) hk
  have hscore : (analyzeResume r v).keywordsScore =
      (if (allRequirements (extractVacancyRequirements v.data)).length = 0 then 100
       else min (jsRound ((((allRequirements (extractVacancyRequirements v.data)).filter
          (fun q => hasSub (lowerList (parseResume r.data).rawText)
            (lowerList q))).length : ℚ) /
          ((allRequirements (extractVacancyRequirements v.data)).length : ℚ) *
            100)).toNat 100) :=
    congrArg (fun t => t.1) hk
  refine ⟨hmat, hmiss, ?_, ?_⟩
  · rw [hmat]
    exact hscore
  · rintro ⟨h1, h2⟩
    have hreq : extractVacancyRequirements v.data = ⟨[], [], []⟩ :=
      extractVacancyRequirements_empty h1 h2
    rw [hreq] at hmat hmiss hscore
    refine ⟨?_, ?_, ?_⟩
    · rw [hscore]; rfl
    · rw [hmat]; rfl
    · rw [hmiss]; rfl

/-- Witness for claim C2: the vacancy "привет мир" contains no vocabulary
skill and no repeated candidate word, so the keyword score is vacuously
100 with empty matched and missing lists. -/
theorem C2_keyword_score_witness :
    ((∀ s ∈ itSkills ++ softSkills,
        hasSub (lowerList (strChars "привет мир")) (lowerList s) = false) ∧
      (cyrWords (lowerList (strChars "привет мир"))).Nodup) ∧
    ((analyzeResume "абв" "привет мир").keywordsScore = 100 ∧
     (analyzeResume "абв" "привет мир").matchedKeywords = [] ∧
     (analyzeResume "абв" "привет мир").missingKeywords = []) :=
  ⟨⟨by decide, by decide⟩,
    (C2_keyword_score "абв" "привет мир").2.2.2 ⟨by decide, by decide⟩⟩

/-! ### The worked scenario -/

/-- Claim C6: on the résumé "Иван Иванов / ivan@mail.ru /
+7 900 123 45 67 / Опыт работы: 3 года Python разработки, Docker, Git"
and the vacancy "Ищем Python разработчика с опытом Docker и Git", the
engine extracts the name "Иван Иванов" and the email "ivan@mail.ru",
matches python, docker and git, scores contacts at 100 and reaches an
overall score of at least 60 (it is 62). -/
theorem C6_scenario :
    (analyzeResume "Иван Иванов\nivan@mail.ru\n+7 900 123 45 67\nОпыт работы: 3 года Python разработки, Docker, Git"
        "Ищем Python разработчика с опытом Docker и Git").parsedResume.name =
      some (strChars "Иван Иванов") ∧
    (analyzeResume "Иван Иванов\nivan@mail.ru\n+7 900 123 45 67\nОпыт работы: 3 года Python разработки, Docker, Git"
        "Ищем Python разработчика с опытом Docker и Git").parsedResume.email =
      some (strChars "ivan@mail.ru") ∧
    strChars "python" ∈
      (analyzeResume "Иван Иванов\nivan@mail.ru\n+7 900 123 45 67\nОпыт работы: 3 года Python разработки, Docker, Git"
        "Ищем Python разработчика с опытом Docker и Git").matchedKeywords ∧
    strChars "docker" ∈
      (analyzeResume "Иван Иванов\nivan@mail.ru\n+7 900 123 45 67\nОпыт работы: 3 года Python разработки, Docker, Git"
        "Ищем Python разработчика с опытом Docker и Git").matchedKeywords ∧
    strChars "git" ∈
      (analyzeResume "Иван Иванов\nivan@mail.ru\n+7 900 123 45 67\nОпыт работы: 3 года Python разработки, Docker, Git"
        "Ищем Python разработчика с опытом Docker и Git").matchedKeywords ∧
    (analyzeResume "Иван Иванов\nivan@mail.ru\n+7 900 123 45 67\nОпыт работы: 3 года Python разработки, Docker, Git"
        "Ищем Python разработчика с опытом Docker и Git").contactsScore = 100 ∧
    60 ≤ (analyzeResume "Иван Иванов\nivan@mail.ru\n+7 900 123 45 67\nОпыт работы: 3 года Python разработки, Docker, Git"
        "Ищем Python разработчика с опытом Docker и Git").score := by
  decide

/-- Witness for claim C4: the résumé "абв где" contains no section
keyword, so its section set is empty and its structure score is at
most 15. -/
theorem C4_structure_formula_witness :
    (∀ k ∈ allSectionKeywords,
        hasSub (lowerList (analyzeResume "абв где" "й").parsedResume.rawText) k
          = false) ∧
    ((analyzeResume "абв где" "й").parsedResume.sections = [] ∧
     (analyzeResume "абв где" "й").structureScore ≤ 15) :=
  ⟨by decide, C4_structure_formula.2 "абв где" "й" (by decide)⟩

/-! ### Name extraction and the collapsed text -/

/-- Counterexample to claim C7: in the résumé "x\nИван Иванов" the
second of the first five lines matches the name pattern (the match being
"Иван Иванов"), yet the extracted name is `none`, because the regex is
applied to the whitespace-collapsed text, which is the single line
"x Иван Иванов" and does not match at its start. -/
theorem C7_name_counterexample :
    nameMatch (trimList (strChars "Иван Иванов")) = some (strChars "Иван Иванов") ∧
    splitLines (strChars "x\nИван Иванов") =
      [strChars "x", strChars "Иван Иванов"] ∧
    (analyzeResume "x\nИван Иванов" "й").parsedResume.name = none := by
  decide

/-- Claim C7 (amended): name extraction applies the regex to the lines
of the already whitespace-collapsed text, which is a single line, so
`parsedResume.name` is exactly the regex match at the start of the
trimmed collapsed text — a name on any original line but the first is
not found, and a name assembled across original line breaks is. -/
theorem C7_name_from_collapsed_text (r v : String) :
    (analyzeResume r v).parsedResume.name =
      nameMatch (trimList (normalizeText r.data)) := by
  show extractName (normalizeText r.data) = _
  unfold extractName
  rw [splitLines_eq_single (nl_not_mem_normalizeText r.data)]
  cases h : nameMatch (trimList (normalizeText r.data)) with
  | none => simp [firstSome, h]
  | some w => simp [firstSome, h]

/-! ### The missing-keyword cap and the rule-1 recommendation -/

theorem generateRecommendations_head {k : Nat} {ms : List Chars}
    (s c e : Nat) (resume : ParsedResume) (reqs : VacancyRequirements)
    (mk : List Chars) (hk : k < 70) (hms : ms.length > 0) :
    (generateRecommendations k s c e resume reqs mk ms).head? =
      some (mkRule1 ms) := by
  unfold generateRecommendations
  have h1 : rule1Recs k ms = [mkRule1 ms] := by simp [rule1Recs, hk, hms]
  rw [h1]
  have hne : ¬ (([mkRule1 ms] ++ rule2Recs s resume ++ rule3Recs c resume ++
      rule4Recs e resume).length = 0) := by simp
  rw [if_neg hne]
  rfl

set_option maxHeartbeats 2000000 in
/-- Counterexample to claim C9: with résumé "абв" and a vacancy naming
eleven vocabulary skills, eleven requirements are missing, the reported
`missingKeywords` has the capped length 10, and the rule-1
recommendation's text states the count 10 of the truncated list — not
the size 11 of the full missing set, because `analyzeKeywords` truncates
before the recommendation generator runs. -/
theorem C9_full_count_counterexample :
    (analyzeResume "абв"
      "python java javascript react angular vue docker kubernetes aws git sql").missingKeywords.length
        = 10 ∧
    (fullMissing (parseResume (strChars "абв"))
      (extractVacancyRequirements (strChars
        "python java javascript react angular vue docker kubernetes aws git sql"))).length
        = 11 ∧
    ((analyzeResume "абв"
      "python java javascript react angular vue docker kubernetes aws git sql").recommendations.head?.map
        Recommendation.description)
      = some (strChars
          "Ваше резюме не содержит 10 важных ключевых слов. ATS системы ищут точные совпадения.") ∧
    strChars
        "Ваше резюме не содержит 10 важных ключевых слов. ATS системы ищут точные совпадения." ≠
      strChars
        "Ваше резюме не содержит 11 важных ключевых слов. ATS системы ищут точные совпадения." := by
  decide

set_option maxHeartbeats 4000000 in
/-- Claim C9 (amended): the reported `missingKeywords` list is the first
10 entries of the untruncated missing partition (hence has at most 10
entries), and the rule-1 critical recommendation, when it fires, states
the length of this already-truncated list — truncation happens inside
the keyword analyzer, before recommendations are generated. -/
theorem C9_missing_cap (r v : String) :
    ((analyzeResume r v).missingKeywords.length ≤ 10) ∧
    ((analyzeResume r v).missingKeywords =
      (fullMissing (parseResume r.data)
        (extractVacancyRequirements v.data)).take 10) ∧
    ((analyzeResume r v).keywordsScore < 70 →
      (analyzeResume r v).missingKeywords.length > 0 →
      (analyzeResume r v).recommendations.head? =
        some (mkRule1 (analyzeResume r v).missingKeywords)) := by
  have hk := analyzeKeywords_eq (parseResume r.data)
    (extractVacancyRequirements v.data)
  have hmiss : (analyzeResume r v).missingKeywords =
      ((allRequirements (extractVacancyRequirements v.data)).filter
        (fun q => !(hasSub (lowerList (parseResume r.data).rawText)
          (lowerList q)))).take 10 :=
    congrArg (fun t => t.2.2) hk
  have hfull : fullMissing (parseResume r.data) (extractVacancyRequirements v.data) =
      (allRequirements (extractVacancyRequirements v.data)).filter
        (fun q => !(hasSub (lowerList (parseResume r.data).rawText)
          (lowerList q))) :=
    congrArg (fun t => t.2) (keywordPartition_eq (parseResume r.data)
      (extractVacancyRequirements v.data))
  refine ⟨?_, ?_, ?_⟩
  · rw [hmiss, List.length_take]
    exact min_le_left _ _
  · rw [hmiss, hfull]
  · intro h1 h2
    show (generateRecommendations
        ((analyzeKeywords (parseResume r.data)
          (extractVacancyRequirements v.data)).1)
        (analyzeStructure (parseResume r.data))
        (analyzeContacts (parseResume r.data))
        (analyzeExperience (parseResume r.data)
          (extractVacancyRequirements v.data))
        (parseResume r.data) (extractVacancyRequirements v.data)
        ((analyzeKeywords (parseResume r.data)
          (extractVacancyRequirements v.data)).2.1)
        ((analyzeKeywords (parseResume r.data)
          (extractVacancyRequirements v.data)).2.2)).head?
      = some (mkRule1 ((analyzeKeywords (parseResume r.data)
          (extractVacancyRequirements v.data)).2.2))
    exact generateRecommendations_head _ _ _ _ _ _ h1 h2

set_option maxHeartbeats 2000000 in
/-- Witness for claim C9: at the counterexample input the keyword score
is 0 < 70 and ten keywords are reported missing, so the rule-1
recommendation heads the list and quotes the truncated count. -/
theorem C9_missing_cap_witness :
    ((analyzeResume "абв"
        "python java javascript react angular vue docker kubernetes aws git sql").keywordsScore
      < 70) ∧
    ((analyzeResume "абв"
        "python java javascript react angular vue docker kubernetes aws git sql").missingKeywords.length
      > 0) ∧
    ((analyzeResume "абв"
        "python java javascript react angular vue docker kubernetes aws git sql").recommendations.head?
      = some (mkRule1 (analyzeResume "абв"
          "python java javascript react angular vue docker kubernetes aws git sql").missingKeywords)) :=
  ⟨by decide, by decide,
    (C9_missing_cap "абв"
      "python java javascript react angular vue docker kubernetes aws git sql").2.2
      (by decide) (by decide)⟩

/-! ### The block-extraction automaton on line-preserving text -/

theorem any_false_of_subset {p : Chars → Bool} {ks : List Chars}
    (hsub : ∀ k ∈ ks, k ∈ allSectionKeywords)
    (h : (allSectionKeywords.any p) = false) : ks.any p = false :=
  List.any_eq_false.2 fun k hk =>
    List.any_eq_false.1 h k (hsub k hk)

theorem experienceKeywords_subset :
    ∀ k ∈ experienceKeywords, k ∈ allSectionKeywords := fun k hk => by
  simp [allSectionKeywords, hk]

theorem expTerminators_subset :
    ∀ k ∈ expTerminators, k ∈ allSectionKeywords := fun k hk =>
  List.mem_of_mem_filter hk

theorem splitLinesAux_newline (acc rest : Chars) :
    splitLinesAux acc ('\n' :: rest) = acc.reverse :: splitLinesAux [] rest := by
  simp [splitLinesAux]

theorem splitLinesAux_cons (acc : Chars) (c : Char) (rest : Chars)
    (hc : ¬ c = '\n') :
    splitLinesAux acc (c :: rest) = splitLinesAux (c :: acc) rest := by
  simp [splitLinesAux, hc]

theorem splitLinesAux_append_nl (l rest acc : Chars) (hl : '\n' ∉ l) :
    splitLinesAux acc (l ++ '\n' :: rest) =
      (acc.reverse ++ l) :: splitLinesAux [] rest := by
  induction l generalizing acc with
  | nil =>
    rw [List.nil_append, splitLinesAux_newline]
    simp
  | cons c cl ih =>
    have hc : ¬ c = '\n' := fun hceq => hl (hceq ▸ List.mem_cons_self c cl)
    have hcl : '\n' ∉ cl := fun hm => hl (List.mem_cons_of_mem c hm)
    rw [List.cons_append, splitLinesAux_cons acc c _ hc, ih (c :: acc) hcl]
    simp

theorem splitLinesAux_joinNL (l : Chars) (ls : List Chars) (acc : Chars)
    (hl : '\n' ∉ l) (hls : ∀ l' ∈ ls, '\n' ∉ l') :
    splitLinesAux acc (joinNL (l :: ls)) = (acc.reverse ++ l) :: ls := by
  induction ls generalizing l acc with
  | nil => exact splitLinesAux_eq_of_nl_not_mem l acc hl
  | cons l' ls' ih =>
    have hjoin : joinNL (l :: l' :: ls') = l ++ '\n' :: joinNL (l' :: ls') := by
      simp [joinNL, joinSep]
    rw [hjoin, splitLinesAux_append_nl l _ acc hl]
    rw [ih l' [] (hls l' (List.mem_cons_self l' ls'))
      (fun x hx => hls x (List.mem_cons_of_mem l' hx))]
    simp

theorem splitLines_joinNL (l : Chars) (ls : List Chars)
    (hl : '\n' ∉ l) (hls : ∀ l' ∈ ls, '\n' ∉ l') :
    splitLines (joinNL (l :: ls)) = l :: ls := by
  unfold splitLines
  rw [splitLinesAux_joinNL l ls [] hl hls]
  simp

/-- Inside an experience section the loop collects exactly the
keyword-free non-blank lines up to an other-category line (or the end of
input). -/
theorem sectionLoop_collects (block rest : List Chars)
    (hb : ∀ l ∈ block, (trimList l).isEmpty = false ∧
      (allSectionKeywords.any fun k => hasSub (trimList (lowerList l)) k) = false)
    (hr : (rest.head?.all fun f =>
      (expTerminators.any fun k => hasSub (trimList (lowerList f)) k) &&
        !(experienceKeywords.any fun k =>
          hasSub (trimList (lowerList f)) k)) = true) :
    sectionLoop experienceKeywords expTerminators true (block ++ rest) = block := by
  induction block with
  | nil =>
    cases rest with
    | nil => rfl
    | cons f rs =>
      simp only [List.head?, Option.all_some, Bool.and_eq_true,
        Bool.not_eq_eq_eq_not, Bool.not_true] at hr
      obtain ⟨hterm, hnexp⟩ := hr
      simp only [List.nil_append, sectionLoop]
      rw [hnexp, hterm]
      simp
  | cons l bl ih =>
    obtain ⟨hnb, hna⟩ := hb l (List.mem_cons_self l bl)
    have hst : (experienceKeywords.any fun k =>
        hasSub (trimList (lowerList l)) k) = false :=
      any_false_of_subset experienceKeywords_subset hna
    have hen : (expTerminators.any fun k =>
        hasSub (trimList (lowerList l)) k) = false :=
      any_false_of_subset expTerminators_subset hna
    have ihb := ih fun x hx => hb x (List.mem_cons_of_mem l hx)
    simp only [List.cons_append, sectionLoop]
    rw [hst, hen, hnb]
    simp [ihb]

/-- Counterexample to claim C5: the résumé "опыт работы\nPython" is an
experience-marker line followed by one non-blank keyword-free line with
no other-category line, so the claim demands
`parsedResume.experience = "Python"`; the code collapses the newline
before extraction, so the experience block is empty. -/
theorem C5_pipeline_counterexample :
    splitLines (strChars "опыт работы\nPython") =
      [strChars "опыт работы", strChars "Python"] ∧
    (experienceKeywords.any fun k =>
      hasSub (trimList (lowerList (strChars "опыт работы"))) k) = true ∧
    (allSectionKeywords.any fun k =>
      hasSub (trimList (lowerList (strChars "Python"))) k) = false ∧
    (trimList (strChars "Python")).isEmpty = false ∧
    (analyzeResume "опыт работы\nPython" "й").parsedResume.experience ≠
      strChars "Python" ∧
    (analyzeResume "опыт работы\nPython" "й").parsedResume.experience = [] := by
  decide

/-- Claim C5 (amended): the two-state automaton description holds of
`extractExperienceSection` applied to line-preserving text: on a text
whose lines are an experience-marker line, then non-blank lines free of
all section keywords, then (optionally) a line with another category's
keyword and none of the experience keywords, the extracted block is
exactly the middle lines joined.  In the pipeline, however,
`parseResume` hands the extractor whitespace-collapsed single-line text,
so `parsedResume.experience` is empty for every input. -/
theorem C5_block_extraction (marker : Chars) (block rest : List Chars)
    (hm : (experienceKeywords.any fun k =>
      hasSub (trimList (lowerList marker)) k) = true)
    (hb : ∀ l ∈ block, (trimList l).isEmpty = false ∧
      (allSectionKeywords.any fun k =>
        hasSub (trimList (lowerList l)) k) = false)
    (hr : (rest.head?.all fun f =>
      (expTerminators.any fun k => hasSub (trimList (lowerList f)) k) &&
        !(experienceKeywords.any fun k =>
          hasSub (trimList (lowerList f)) k)) = true)
    (hnl : ∀ l ∈ marker :: (block ++ rest), '\n' ∉ l) :
    extractExperienceSection (joinNL (marker :: (block ++ rest))) =
      joinNL block ∧
    (∀ r v : String, (analyzeResume r v).parsedResume.experience = []) := by
  constructor
  · unfold extractExperienceSection
    rw [splitLines_joinNL marker (block ++ rest)
      (hnl marker (List.mem_cons_self _ _))
      (fun x hx => hnl x (List.mem_cons_of_mem _ hx))]
    have hstart : sectionLoop experienceKeywords expTerminators false
        (marker :: (block ++ rest)) =
        sectionLoop experienceKeywords expTerminators true (block ++ rest) := by
      simp only [sectionLoop]
      rw [hm]
      simp
    rw [hstart, sectionLoop_collects block rest hb hr]
  · exact fun r v => parseResume_experience r.data

/-- Witness for claim C5: the marker "опыт работы", block line "Python",
terminator line "образование". -/
theorem C5_block_extraction_witness :
    extractExperienceSection
        (joinNL [strChars "опыт работы", strChars "Python",
          strChars "образование"]) =
      joinNL [strChars "Python"] :=
  (C5_block_extraction (strChars "опыт работы") [strChars "Python"]
    [strChars "образование"] (by decide) (by decide) (by decide) (by decide)).1

end ResumeChecker
